import Mathlib

/-!
Shallow embedding of the `mastra-minds` Mind Registry subsystem
(`packages/mastra-minds/src`): the multi-provider `MindRegistry`
(registry.ts), the `FileSystemProvider` (providers/filesystem.ts), the
MIND.md parser (parser.ts) and the zod frontmatter schema (types.ts).

JavaScript `Map` objects are modelled as insertion-ordered association
lists (`MapL`); providers are modelled as records of pure functions; the
filesystem and process spawning are modelled as explicit environment
parameters.  Machine strings are Lean `String`s; JS `string.length` is
modelled as the character count (all strings the schema accepts are
ASCII, where the two coincide).
-/

namespace MastraMinds

/-- Insertion-ordered string-keyed map, modelling a JavaScript `Map`:
`set` on an existing key replaces the value in place (keeping the key's
insertion position), `set` on a fresh key appends. -/
structure MapL (α : Type) where
  entries : List (String × α)
deriving DecidableEq

def MapL.empty {α : Type} : MapL α := ⟨[]⟩

def MapL.get {α : Type} (m : MapL α) (k : String) : Option α :=
  (m.entries.find? (fun e => e.1 == k)).map (fun e => e.2)

def MapL.has {α : Type} (m : MapL α) (k : String) : Bool :=
  (m.get k).isSome

def MapL.set {α : Type} (m : MapL α) (k : String) (v : α) : MapL α :=
  if m.has k then
    ⟨m.entries.map (fun e => if e.1 == k then (k, v) else e)⟩
  else
    ⟨m.entries ++ [(k, v)]⟩

def MapL.keys {α : Type} (m : MapL α) : List String :=
  m.entries.map (fun e => e.1)

/-! ## Data model (types.ts) -/

/-- Discovery-time record `MindMetadata` (types.ts): name and description. -/
structure MindMetadata where
  name : String
  description : String
deriving DecidableEq

/-- Validated frontmatter record (types.ts `MindFrontmatter`).  The
`metadata` field is a string-to-string record in the source; the simple
YAML decoder in parser.ts only ever produces string (or undefined)
values, so a present `metadata` value always fails `z.record` validation
and a validated record carries `none` there. -/
structure MindFrontmatter where
  name : String
  description : String
  license : Option String
  compatibility : Option String
  allowedTools : Option String
  model : Option String
  metadata : Option (List (String × String))
deriving DecidableEq

/-- Full mind content (types.ts `Mind`). -/
structure Mind where
  metadata : MindMetadata
  frontmatter : MindFrontmatter
  content : String
deriving DecidableEq

/-- Script execution result (types.ts `ScriptResult`). -/
structure ScriptResult where
  success : Bool
  stdout : String
  stderr : String
  exitCode : Int
deriving DecidableEq

/-! ## MindRegistry (registry.ts, multi-provider version) -/

/-- Conflict resolution strategy (registry.ts `ConflictStrategy`). -/
inductive ConflictStrategy
  | first
  | last
deriving DecidableEq

/-- A `MindsProvider` as the registry sees it: a name, the result of
`discover()`, and the `loadMind` function.  (`hasMind`, `readResource`
and `executeScript` of the provider interface are not consulted by the
registry operations under study.) -/
structure RProvider where
  name : String
  discover : List MindMetadata
  loadMind : String → Option Mind

/-- The fields of a `MindRegistry` object: the provider list and
strategy fixed at construction, and the three mutable indices. -/
structure RegState where
  providers : List RProvider
  strategy : ConflictStrategy
  metadataCache : MapL MindMetadata
  mindCache : MapL Mind
  mindProviderMap : MapL RProvider

/-- Warning emitted by `init()` when strategy `first` skips a duplicate. -/
def warnSkipped (mindName provName existingName : String) : String :=
  "Mind \"" ++ mindName ++ "\" from [" ++ provName
    ++ "] skipped, already registered from [" ++ existingName ++ "]"

/-- Warning emitted by `init()` when strategy `last` overwrites. -/
def warnOverwritten (mindName existingName provName : String) : String :=
  "Mind \"" ++ mindName ++ "\" overwritten: [" ++ existingName
    ++ "] -> [" ++ provName ++ "]"

/-- Body of the inner `for (const mind of minds)` loop of
`MindRegistry.init` (registry.ts): the accumulator carries the metadata
cache, the provider-ownership map, and the `console.warn` messages
emitted so far. -/
def registerMind (strategy : ConflictStrategy) (provider : RProvider)
    (acc : MapL MindMetadata × MapL RProvider × List String)
    (mind : MindMetadata) :
    MapL MindMetadata × MapL RProvider × List String :=
  match acc.2.1.get mind.name with
  | some existing =>
    match strategy with
    | ConflictStrategy.first =>
      (acc.1, acc.2.1,
        acc.2.2 ++ [warnSkipped mind.name provider.name existing.name])
    | ConflictStrategy.last =>
      (acc.1.set mind.name mind, acc.2.1.set mind.name provider,
        acc.2.2 ++ [warnOverwritten mind.name existing.name provider.name])
  | none =>
    (acc.1.set mind.name mind, acc.2.1.set mind.name provider, acc.2.2)

/-- `MindRegistry.init` (registry.ts): clears the three indices, then
processes providers in order, merging each provider's `discover()`
output through `registerMind`.  Returns the new state together with the
list of emitted warnings. -/
def MindRegistry.init (s : RegState) : RegState × List String :=
  let acc := s.providers.foldl
    (fun acc provider =>
      provider.discover.foldl (registerMind s.strategy provider) acc)
    (MapL.empty, MapL.empty, [])
  ({ s with
      metadataCache := acc.1
      mindCache := MapL.empty
      mindProviderMap := acc.2.1 },
    acc.2.2)

/-- `MindRegistry.getMetadata` (registry.ts): pure cache lookup. -/
def MindRegistry.getMetadata (s : RegState) (name : String) :
    Option MindMetadata :=
  s.metadataCache.get name

/-- `MindRegistry.getProviderForMind` (registry.ts). -/
def MindRegistry.getProviderForMind (s : RegState) (name : String) :
    Option RProvider :=
  s.mindProviderMap.get name

/-- `MindRegistry.hasMind` (registry.ts): membership in the ownership
map, no provider involvement. -/
def MindRegistry.hasMind (s : RegState) (name : String) : Bool :=
  s.mindProviderMap.has name

/-- `MindRegistry.listMinds` (registry.ts). -/
def MindRegistry.listMinds (s : RegState) : List String :=
  s.metadataCache.keys

/-- `MindRegistry.loadMind` (registry.ts): cache check, owner lookup,
delegate, cache the non-undefined result.  The third component counts
how many times the owning provider's `loadMind` was invoked during this
call (0 or 1), the observable the spec's memoization property is stated
over. -/
def MindRegistry.loadMind (s : RegState) (name : String) :
    Option Mind × RegState × Nat :=
  if s.mindCache.has name then
    (s.mindCache.get name, s, 0)
  else
    match s.mindProviderMap.get name with
    | none => (none, s, 0)
    | some provider =>
      match provider.loadMind name with
      | some mind =>
        (some mind, { s with mindCache := s.mindCache.set name mind }, 1)
      | none => (none, s, 1)

/-- A sequence of `loadMind` calls, threading the state. -/
def execLoads (s : RegState) (ops : List String) : RegState :=
  ops.foldl (fun s n => (MindRegistry.loadMind s n).2.1) s

/-! ## Parser (parser.ts) -/

/-- Character class of the JavaScript regex token `\s` (also the set
trimmed by `String.prototype.trim`). -/
def isJsSpace (c : Char) : Bool :=
  let n := c.toNat
  n = 9 || n = 10 || n = 11 || n = 12 || n = 13 || n = 32 ||
  n = 0xa0 || n = 0x1680 || (0x2000 ≤ n && n ≤ 0x200a) ||
  n = 0x2028 || n = 0x2029 || n = 0x202f || n = 0x205f ||
  n = 0x3000 || n = 0xfeff

/-- JavaScript line terminators other than `\n` (which cannot occur
inside a line after splitting on `\n`): these are not matched by the
regex token `.`. -/
def isLineTerm (c : Char) : Bool :=
  c.toNat = 13 || c.toNat = 0x2028 || c.toNat = 0x2029

def jsTrimList (l : List Char) : List Char :=
  ((l.dropWhile isJsSpace).reverse.dropWhile isJsSpace).reverse

/-- JavaScript `String.prototype.trim`. -/
def jsTrim (s : String) : String := ⟨jsTrimList s.data⟩

/-- Character class of the JavaScript regex token `\w`. -/
def wordChar (c : Char) : Bool :=
  ('a' ≤ c && c ≤ 'z') || ('A' ≤ c && c ≤ 'Z') ||
  ('0' ≤ c && c ≤ '9') || c = '_'

/-- JavaScript `String.prototype.split` with a single-character
separator, on character lists.  The result is always non-empty. -/
def splitChar (sep : Char) : List Char → List (List Char)
  | [] => [[]]
  | c :: rest =>
    let r := splitChar sep rest
    if c = sep then [] :: r
    else (c :: r.headD []) :: r.tail

/-- Scan for the first occurrence of the closing delimiter `\n---\n`
(the lazy group `([\s\S]*?)\n---\n` of the frontmatter regex), returning
the text before it and the text after it. -/
def findDelim : List Char → Option (List Char × List Char)
  | '\n' :: '-' :: '-' :: '-' :: '\n' :: rest => some ([], rest)
  | c :: rest => (findDelim rest).map (fun p => (c :: p.1, p.2))
  | [] => none

/-- Matching of the anchored frontmatter regex
`^---\n([\s\S]*?)\n---\n([\s\S]*)$` of `parseFrontmatter` (parser.ts):
the document must begin with the four characters `---\n` and contain a
closing `\n---\n`; the split is at the first such occurrence. -/
def splitFM (l : List Char) : Option (List Char × List Char) :=
  match l with
  | '-' :: '-' :: '-' :: '\n' :: rest => findDelim rest
  | _ => none

/-- Shared front of the line regexes `^(\w[\w-]*):` — a key (one `\w`
character then `[\w-]*`) followed by a colon; returns the key and the
characters after the colon.  The group is greedy, and since `:` is not
in `[\w-]`, the maximal run needs no backtracking. -/
def keySplit (l : List Char) : Option (List Char × List Char) :=
  match l with
  | [] => none
  | c :: rest =>
    if wordChar c then
      let ks := rest.takeWhile (fun d => wordChar d || d = '-')
      match rest.drop ks.length with
      | ':' :: r => some (c :: ks, r)
      | _ => none
    else none

/-- Matching of the multiline-header regex `^(\w[\w-]*):\s*\|$`: after
the colon, whitespace then a final `|`. -/
def multilineKey (l : List Char) : Option String :=
  match keySplit l with
  | some (k, rest) =>
    if rest.getLast? = some '|' && rest.dropLast.all isJsSpace then
      some ⟨k⟩
    else none
  | none => none

/-- Matching of the key-value regex `^(\w[\w-]*):\s*(.*)$`: `\s*` is
greedy, and `.` does not match line terminators, so the regex matches
iff every line terminator after the colon lies in the leading
whitespace; the captured value is the rest with leading whitespace
stripped. -/
def keyValue (l : List Char) : Option (String × String) :=
  match keySplit l with
  | some (k, rest) =>
    let v := rest.dropWhile isJsSpace
    if v.any isLineTerm then none else some (⟨k⟩, ⟨v⟩)
  | none => none

/-- Value stored for a regular `key: value` line (parser.ts): strip
matching double or single quotes (JS `slice(1, -1)`), and an empty
unquoted value becomes `undefined` (here `none`) via `value ||
undefined`. -/
def storeValue (v : List Char) : Option String :=
  let sq : Char := Char.ofNat 39
  if v.head? = some '"' && v.getLast? = some '"' then
    some ⟨(v.drop 1).dropLast⟩
  else if v.head? = some sq && v.getLast? = some sq then
    some ⟨(v.drop 1).dropLast⟩
  else if v = [] then none
  else some ⟨v⟩

/-- Mutable state of the line loop in `parseFrontmatter` (parser.ts).
A frontmatter value of `none` models a key present with value
`undefined`. -/
structure YState where
  currentKey : Option String
  multilineValue : String
  inMultiline : Bool
  frontmatter : MapL (Option String)

/-- The assignment `frontmatter[currentKey] = multilineValue.trim()`
guarded by `if (currentKey)` (keys from the regex are never empty, so
truthiness is `isSome`). -/
def flushMultiline (st : YState) : MapL (Option String) :=
  match st.currentKey with
  | some k => st.frontmatter.set k (some (jsTrim st.multilineValue))
  | none => st.frontmatter

/-- JavaScript `line.startsWith("  ")` (two spaces). -/
def twoSpaceIndent : List Char → Bool
  | ' ' :: ' ' :: _ => true
  | _ => false

/-- One iteration of the `for (const line of yamlContent.split("\n"))`
loop of `parseFrontmatter` (parser.ts).  A line matching the
multiline-header regex cannot start with two spaces (its first character
is `\w`), so testing that regex first is equivalent to the source's
check order. -/
def yamlStep (st : YState) (line : List Char) : YState :=
  match multilineKey line with
  | some k =>
    let fm := if st.inMultiline then flushMultiline st else st.frontmatter
    { currentKey := some k, multilineValue := "", inMultiline := true,
      frontmatter := fm }
  | none =>
    if st.inMultiline && twoSpaceIndent line then
      { st with multilineValue :=
          st.multilineValue ++ ⟨line.drop 2⟩ ++ "\n" }
    else
      let st1 :=
        if st.inMultiline && !(twoSpaceIndent line)
            && !(jsTrimList line == [])
        then { st with frontmatter := flushMultiline st, inMultiline := false }
        else st
      match keyValue line with
      | some (k, v) =>
        { st1 with frontmatter := st1.frontmatter.set k (storeValue v.data),
                   currentKey := some k }
      | none => st1

/-- The simple YAML decoder of `parseFrontmatter` (parser.ts): fold the
line loop over `yamlContent.split("\n")`, then flush a trailing
multiline value. -/
def decodeYaml (yamlContent : List Char) : MapL (Option String) :=
  let final := (splitChar '\n' yamlContent).foldl yamlStep
    ⟨none, "", false, MapL.empty⟩
  if final.inMultiline then flushMultiline final else final.frontmatter

/-- `parseFrontmatter` (parser.ts): split off the frontmatter block via
the anchored regex (throwing the structural error on failure), decode it,
and return it with the trimmed body. -/
def parseFrontmatter (content : String) :
    Except String (MapL (Option String) × String) :=
  match splitFM content.data with
  | none => Except.error "Invalid MIND.md: missing YAML frontmatter"
  | some (fmChars, bodyChars) =>
    Except.ok (decodeYaml fmChars, jsTrim ⟨bodyChars⟩)

/-! ## Frontmatter schema (types.ts) -/

/-- Field access for validation: a key present with value `undefined`
fails a required-string check exactly like a missing key, and satisfies
an optional field exactly like a missing key. -/
def fmVal (fm : MapL (Option String)) (k : String) : Option String :=
  match fm.get k with
  | some (some v) => some v
  | _ => none

def isLowerAlnum (c : Char) : Bool :=
  ('a' ≤ c && c ≤ 'z') || ('0' ≤ c && c ≤ '9')

/-- Occurrence of the substring `--`. -/
def hasHH : List Char → Bool
  | [] => false
  | [_] => false
  | c :: d :: rest => (c == '-' && d == '-') || hasHH (d :: rest)

/-- Matcher for the name regex `^[a-z0-9]+(-[a-z0-9]+)*$` (types.ts),
as the evident two-state automaton: `needChar = true` at the start of a
segment (at least one `[a-z0-9]` required), `false` inside a segment. -/
def nameDFA : Bool → List Char → Bool
  | needChar, [] => !needChar
  | needChar, c :: rest =>
    if isLowerAlnum c then nameDFA false rest
    else if needChar then false
    else if c = '-' then nameDFA true rest
    else false

def nameRegexMatch (s : String) : Bool := nameDFA true s.data

/-- The zod chain `z.string().min(1).max(64).regex(...)` on `name`. -/
def nameValid (s : String) : Bool :=
  decide (1 ≤ s.length) && decide (s.length ≤ 64) && nameRegexMatch s

/-- The zod chain `z.string().min(1).max(1024)` on `description`. -/
def descriptionValid (s : String) : Bool :=
  decide (1 ≤ s.length) && decide (s.length ≤ 1024)

/-- `MindFrontmatterSchema.parse` (types.ts) applied to a record decoded
by the simple YAML parser.  All decoded values are strings (or
`undefined`), so the `metadata` field — typed `z.record(z.string(),
z.string())` — validates only when absent or `undefined`; `license`,
`allowed-tools` and `model` are unconstrained optional strings;
`compatibility` is an optional string of length at most 500. -/
def schemaChecks (fm : MapL (Option String)) (n d : String) : Bool :=
  nameValid n && descriptionValid d
    && (match fmVal fm "compatibility" with
        | some c => decide (c.length ≤ 500)
        | none => true)
    && (fmVal fm "metadata").isNone

def schemaParse (fm : MapL (Option String)) : Option MindFrontmatter :=
  match fmVal fm "name", fmVal fm "description" with
  | some n, some d =>
    if schemaChecks fm n d then
      some ⟨n, d, fmVal fm "license", fmVal fm "compatibility",
        fmVal fm "allowed-tools", fmVal fm "model", none⟩
    else none
  | _, _ => none

/-- `parseMindMd` (parser.ts): structural split, schema validation, and
construction of the `Mind` value.  `Except.error` models the two raised
fault paths (structural error, zod validation error). -/
def parseMindMd (content : String) : Except String Mind :=
  match parseFrontmatter content with
  | Except.error e => Except.error e
  | Except.ok (fm, body) =>
    match schemaParse fm with
    | none => Except.error "Frontmatter validation failed"
    | some vfm =>
      Except.ok ⟨⟨vfm.name, vfm.description⟩, vfm, body⟩

/-! ## FileSystemProvider (providers/filesystem.ts) -/

/-- Result of `Bun.spawn` plus waiting: either a completed process with
captured streams and exit code, or a spawn-level exception. -/
inductive SpawnOutcome
  | ok (stdout stderr : String) (exitCode : Int)
  | exn (message : String)

/-- Mutable state of a `FileSystemProvider`: the base directory and the
`mindDirs` index (mind name to directory path). -/
structure FSState where
  baseDir : String
  mindDirs : MapL String

/-- The filesystem and process environment the provider runs against:
`fileExists` models `Bun.file(...).exists()`, `readFile` models
`Bun.file(...).text()` (with `none` for a thrown read error), and
`spawn` models `Bun.spawn` (command, working directory, and the two
injected environment variables). -/
structure FSEnv where
  fileExists : String → Bool
  readFile : String → Option String
  spawn : List String → String → List (String × String) → SpawnOutcome

/-- Left-to-right global replacement of `..` by the empty string
(`path.replace(/\.\./g, "")`): on a match the scan continues after the
matched pair, otherwise the character is emitted and the scan moves one
character right. -/
def stripDD : List Char → List Char
  | [] => []
  | [c] => [c]
  | c :: d :: rest =>
    if c = '.' ∧ d = '.' then stripDD rest
    else c :: stripDD (d :: rest)

def stripDotDot (s : String) : String := ⟨stripDD s.data⟩

/-- Occurrence of the substring `..`. -/
def hasDD : List Char → Bool
  | [] => false
  | [_] => false
  | c :: d :: rest => (c == '.' && d == '.') || hasDD (d :: rest)

/-- ASCII case lowering (the fragment of JS `toLowerCase` relevant to
the extension comparison against `ts`/`js`/`sh`/`py`). -/
def asciiLower (c : Char) : Char :=
  if 'A' ≤ c ∧ c ≤ 'Z' then Char.ofNat (c.toNat + 32) else c

/-- Extension extraction `scriptPath.split(".").pop()?.toLowerCase()`
of `executeScript` (filesystem.ts); `split` always returns a non-empty
array, so the result is always defined. -/
def scriptExt (scriptPath : String) : Option String :=
  ((splitChar '.' scriptPath.data).getLast?).map
    (fun l => String.mk (l.map asciiLower))

/-- `FileSystemProvider.readResource` (filesystem.ts): index lookup,
`..`-stripping, existence check, then read (with a thrown read error
caught to `undefined`). -/
def FileSystemProvider.readResource (st : FSState) (env : FSEnv)
    (mindName path : String) : Option String :=
  match st.mindDirs.get mindName with
  | none => none
  | some mindDir =>
    let normalizedPath := stripDotDot path
    let fullPath := mindDir ++ "/" ++ normalizedPath
    if env.fileExists fullPath then env.readFile fullPath else none

/-- `FileSystemProvider.loadMind` (filesystem.ts): read and parse fresh
from the indexed directory, or fall back to probing
`{baseDir}/{name}/MIND.md`, inserting the fallback directory into the
index on success.  All read/parse failures become `none`. -/
def FileSystemProvider.loadMind (st : FSState) (env : FSEnv)
    (name : String) : Option Mind × FSState :=
  match st.mindDirs.get name with
  | none =>
    let fallbackDir := st.baseDir ++ "/" ++ name
    if env.fileExists (fallbackDir ++ "/MIND.md") = false then (none, st)
    else
      match env.readFile (fallbackDir ++ "/MIND.md") with
      | none => (none, st)
      | some content =>
        match parseMindMd content with
        | Except.error _ => (none, st)
        | Except.ok mind =>
          (some mind, { st with mindDirs := st.mindDirs.set name fallbackDir })
  | some mindDir =>
    match env.readFile (mindDir ++ "/MIND.md") with
    | none => (none, st)
    | some content =>
      match parseMindMd content with
      | Except.error _ => (none, st)
      | Except.ok mind => (some mind, st)

/-- `FileSystemProvider.hasMind` (filesystem.ts): index membership or
on-disk fallback probe. -/
def FileSystemProvider.hasMind (st : FSState) (env : FSEnv)
    (name : String) : Bool :=
  st.mindDirs.has name ||
    env.fileExists (st.baseDir ++ "/" ++ name ++ "/MIND.md")

/-- `FileSystemProvider.executeScript` (filesystem.ts): index lookup,
`..`-stripping into the `scripts/` subdirectory, interpreter selection
by lowercased final extension, existence check, then spawn with the
mind's directory as working directory and the two identity environment
variables; every failure is a `ScriptResult` with `success = false`. -/
def FileSystemProvider.executeScript (st : FSState) (env : FSEnv)
    (mindName scriptPath : String) (args : List String) : ScriptResult :=
  match st.mindDirs.get mindName with
  | none =>
    ⟨false, "", "Mind \"" ++ mindName ++ "\" not found", 1⟩
  | some mindDir =>
    let normalizedPath := stripDotDot scriptPath
    let fullPath := mindDir ++ "/scripts/" ++ normalizedPath
    let ext := scriptExt scriptPath
    let command : Option (List String) :=
      if ext = some "ts" ∨ ext = some "js" then
        some (["bun", fullPath] ++ args)
      else if ext = some "sh" then some (["bash", fullPath] ++ args)
      else if ext = some "py" then some (["python3", fullPath] ++ args)
      else none
    match command with
    | none =>
      ⟨false, "",
        "Unsupported script type: ."
          ++ (match ext with | some e => e | none => "undefined")
          ++ ". Use .ts, .js, .sh, or .py", 1⟩
    | some cmd =>
      if env.fileExists fullPath = false then
        ⟨false, "", "Script not found: scripts/" ++ scriptPath, 1⟩
      else
        match env.spawn cmd mindDir
            [("MIND_NAME", mindName), ("MIND_DIR", mindDir)] with
        | SpawnOutcome.ok out err code =>
          ⟨code == 0, jsTrim out, jsTrim err, code⟩
        | SpawnOutcome.exn msg =>
          ⟨false, "", "Execution failed: " ++ msg, 1⟩

/-- Every name in the registry's content cache has an owning provider. -/
def CacheOwned (s : RegState) : Prop :=
  ∀ n, s.mindCache.has n = true → s.mindProviderMap.has n = true

/-! ## Claim theorems -/

theorem MapL.get_empty {α : Type} (k : String) :
    (MapL.empty : MapL α).get k = none := rfl

theorem MapL.entries_mk {α : Type} (l : List (String × α)) :
    (MapL.mk l).entries = l := rfl

theorem find_replace_self {α : Type} (k : String) (v : α) :
    ∀ l : List (String × α),
      (l.map (fun e => if e.1 == k then (k, v) else e)).find?
          (fun e => e.1 == k)
        = (l.find? (fun e => e.1 == k)).map (fun _ => (k, v)) := by
  intro l
  induction l with
  | nil => simp
  | cons e rest ih =>
    by_cases he : e.1 == k
    · simp [List.find?, he]
    · simp only [List.map_cons, if_neg he, List.find?, he]
      simpa [List.find?, he] using ih

theorem find_replace_ne {α : Type} (k k' : String) (v : α) (h : k' ≠ k) :
    ∀ l : List (String × α),
      (l.map (fun e => if e.1 == k then (k, v) else e)).find?
          (fun e => e.1 == k')
        = l.find? (fun e => e.1 == k') := by
  intro l
  induction l with
  | nil => simp
  | cons e rest ih =>
    by_cases he : e.1 == k
    · have hek : e.1 = k := by simpa using he
      have h1 : ¬ (k == k') = true := by
        simp only [beq_iff_eq]
        exact fun hh => h hh.symm
      have h2 : ¬ (e.1 == k') = true := by
        rw [hek]; exact h1
      simp only [List.map_cons, if_pos he, List.find?, h1, h2]
      simpa using ih
    · simp only [List.map_cons, if_neg he, List.find?]
      by_cases he' : e.1 == k'
      · simp [he']
      · simpa [he'] using ih

theorem find_append_entries {α : Type} (p : String × α → Bool) :
    ∀ l1 l2 : List (String × α),
      (l1 ++ l2).find? p
        = match l1.find? p with
          | some x => some x
          | none => l2.find? p := by
  intro l1 l2
  induction l1 with
  | nil => simp
  | cons e rest ih =>
    by_cases he : p e
    · simp [List.find?, he]
    · simpa [List.find?, he] using ih

theorem MapL.get_set_self {α : Type} (m : MapL α) (k : String) (v : α) :
    (m.set k v).get k = some v := by
  unfold MapL.set
  by_cases h : m.has k
  · rw [if_pos h]
    unfold MapL.get
    rw [MapL.entries_mk, find_replace_self]
    unfold MapL.has MapL.get at h
    cases hf : m.entries.find? (fun e => e.1 == k) with
    | none => rw [hf] at h; simp at h
    | some e => simp
  · rw [if_neg h]
    unfold MapL.get
    rw [MapL.entries_mk, find_append_entries]
    unfold MapL.has MapL.get at h
    cases hf : m.entries.find? (fun e => e.1 == k) with
    | none => simp [List.find?]
    | some e => rw [hf] at h; simp at h

theorem MapL.get_set_ne {α : Type} (m : MapL α) (k k' : String) (v : α)
    (h : k' ≠ k) : (m.set k v).get k' = m.get k' := by
  unfold MapL.set
  by_cases hk : m.has k
  · rw [if_pos hk]
    unfold MapL.get
    rw [MapL.entries_mk, find_replace_ne k k' v h]
  · rw [if_neg hk]
    unfold MapL.get
    rw [MapL.entries_mk, find_append_entries]
    cases hf : m.entries.find? (fun e => e.1 == k') with
    | none =>
      have : ¬ ((k, v).1 == k') = true := by
        simp only [beq_iff_eq]
        exact fun hh => h hh.symm
      simp [List.find?, this]
    | some e => simp

theorem keys_map_replace {α : Type} (k : String) (v : α) :
    ∀ l : List (String × α),
      (l.map (fun e => if e.1 == k then (k, v) else e)).map (fun e => e.1)
        = l.map (fun e => e.1) := by
  intro l
  induction l with
  | nil => simp
  | cons e rest ih =>
    by_cases he : e.1 == k
    · have : e.1 = k := by simpa using he
      simp only [List.map_cons, if_pos he]
      rw [ih]; simp [this]
    · simp only [List.map_cons, if_neg he]
      rw [ih]

theorem MapL.keys_set {α : Type} (m : MapL α) (k : String) (v : α) :
    (m.set k v).keys = if m.has k then m.keys else m.keys ++ [k] := by
  unfold MapL.set
  by_cases h : m.has k
  · rw [if_pos h, if_pos h]
    unfold MapL.keys
    exact keys_map_replace k v m.entries
  · rw [if_neg h, if_neg h]
    simp [MapL.keys]

theorem MapL.has_eq_keys_elem {α : Type} (m : MapL α) (k : String) :
    m.has k = m.keys.any (fun x => x == k) := by
  unfold MapL.has MapL.get MapL.keys
  induction m.entries with
  | nil => simp
  | cons e rest ih =>
    by_cases he : e.1 == k
    · simp [List.find?, he]
    · simpa [List.find?, he] using ih

/-- Membership is determined by the key list alone. -/
theorem MapL.keys_eq_has_eq {α β : Type} (m : MapL α) (m' : MapL β)
    (k : String) (h : m.keys = m'.keys) : m.has k = m'.has k := by
  rw [MapL.has_eq_keys_elem, MapL.has_eq_keys_elem, h]

theorem MapL.get_isSome_of_has {α : Type} (m : MapL α) (k : String)
    (h : m.has k = true) : (m.get k).isSome := h

theorem MapL.has_set {α : Type} (m : MapL α) (k : String) (v : α)
    (n : String) : (m.set k v).has n = ((n == k) || m.has n) := by
  by_cases h : n = k
  · subst h
    simp [MapL.has, MapL.get_set_self]
  · rw [MapL.has, MapL.get_set_ne m k n v h]
    simp [MapL.has, h]

theorem loadMind_fixed_fields (s : RegState) (name : String) :
    (MindRegistry.loadMind s name).2.1.mindProviderMap = s.mindProviderMap
    ∧ (MindRegistry.loadMind s name).2.1.metadataCache = s.metadataCache
    ∧ (MindRegistry.loadMind s name).2.1.providers = s.providers
    ∧ (MindRegistry.loadMind s name).2.1.strategy = s.strategy := by
  by_cases h : s.mindCache.has name
  · simp [MindRegistry.loadMind, h]
  · cases hp : s.mindProviderMap.get name with
    | none => simp [MindRegistry.loadMind, h, hp]
    | some provider =>
      cases hl : provider.loadMind name with
      | none => simp [MindRegistry.loadMind, h, hp, hl]
      | some m => simp [MindRegistry.loadMind, h, hp, hl]

theorem execLoads_fixed_fields (ops : List String) :
    ∀ s : RegState,
      (execLoads s ops).mindProviderMap = s.mindProviderMap
      ∧ (execLoads s ops).metadataCache = s.metadataCache
      ∧ (execLoads s ops).providers = s.providers
      ∧ (execLoads s ops).strategy = s.strategy := by
  induction ops with
  | nil => intro s; exact ⟨rfl, rfl, rfl, rfl⟩
  | cons op rest ih =>
    intro s
    have h1 := loadMind_fixed_fields s op
    have h2 := ih (MindRegistry.loadMind s op).2.1
    refine ⟨?_, ?_, ?_, ?_⟩
    · exact h2.1.trans h1.1
    · exact h2.2.1.trans h1.2.1
    · exact h2.2.2.1.trans h1.2.2.1
    · exact h2.2.2.2.trans h1.2.2.2

theorem cacheOwned_loadMind (s : RegState) (name : String)
    (h : CacheOwned s) : CacheOwned (MindRegistry.loadMind s name).2.1 := by
  by_cases hc : s.mindCache.has name
  · simpa [MindRegistry.loadMind, hc] using h
  · cases hp : s.mindProviderMap.get name with
    | none => simpa [MindRegistry.loadMind, hc, hp] using h
    | some provider =>
      cases hl : provider.loadMind name with
      | none => simpa [MindRegistry.loadMind, hc, hp, hl] using h
      | some m =>
        intro n hn
        simp only [MindRegistry.loadMind, hc, hp, hl, Bool.false_eq_true,
          if_false] at hn ⊢
        rw [MapL.has_set] at hn
        rcases Bool.or_eq_true_iff.mp hn with h1 | h1
        · have : n = name := by simpa using h1
          subst this
          simp [MapL.has, hp]
        · exact h n h1

theorem cacheOwned_execLoads (ops : List String) :
    ∀ s : RegState, CacheOwned s → CacheOwned (execLoads s ops) := by
  induction ops with
  | nil => intro s h; exact h
  | cons op rest ih =>
    intro s h
    exact ih _ (cacheOwned_loadMind s op h)

theorem init_mindCache_empty (s : RegState) :
    (MindRegistry.init s).1.mindCache = MapL.empty := rfl

theorem init_cacheOwned (s : RegState) :
    CacheOwned (MindRegistry.init s).1 := by
  intro n hn
  rw [init_mindCache_empty] at hn
  simp [MapL.has, MapL.get_empty] at hn

/-- C1: over two providers `[P1, P2]` that both declare a mind named
`x`, after `init()`: with strategy `first`, `getMetadata x` is P1's
metadata and the ownership map assigns `x` to P1; with strategy `last`,
`getMetadata x` is P2's metadata and ownership is P2; in both cases the
losing entry is discarded and exactly one warning is emitted (`init` is
total, hence does not fail). -/
theorem C1_conflict_first_last
    (x : String) (m1 m2 : MindMetadata) (n1 n2 : String)
    (L1 L2 : String → Option Mind)
    (h1 : m1.name = x) (h2 : m2.name = x) :
    MindRegistry.getMetadata
        (MindRegistry.init ⟨[⟨n1, [m1], L1⟩, ⟨n2, [m2], L2⟩],
          ConflictStrategy.first, MapL.empty, MapL.empty, MapL.empty⟩).1 x
      = some m1
    ∧ MindRegistry.getProviderForMind
        (MindRegistry.init ⟨[⟨n1, [m1], L1⟩, ⟨n2, [m2], L2⟩],
          ConflictStrategy.first, MapL.empty, MapL.empty, MapL.empty⟩).1 x
      = some ⟨n1, [m1], L1⟩
    ∧ (MindRegistry.init ⟨[⟨n1, [m1], L1⟩, ⟨n2, [m2], L2⟩],
          ConflictStrategy.first, MapL.empty, MapL.empty, MapL.empty⟩).2
      = [warnSkipped x n2 n1]
    ∧ MindRegistry.getMetadata
        (MindRegistry.init ⟨[⟨n1, [m1], L1⟩, ⟨n2, [m2], L2⟩],
          ConflictStrategy.last, MapL.empty, MapL.empty, MapL.empty⟩).1 x
      = some m2
    ∧ MindRegistry.getProviderForMind
        (MindRegistry.init ⟨[⟨n1, [m1], L1⟩, ⟨n2, [m2], L2⟩],
          ConflictStrategy.last, MapL.empty, MapL.empty, MapL.empty⟩).1 x
      = some ⟨n2, [m2], L2⟩
    ∧ (MindRegistry.init ⟨[⟨n1, [m1], L1⟩, ⟨n2, [m2], L2⟩],
          ConflictStrategy.last, MapL.empty, MapL.empty, MapL.empty⟩).2
      = [warnOverwritten x n1 n2] := by
  subst h1
  rw [← h2]
  simp only [MindRegistry.init, MindRegistry.getMetadata,
    MindRegistry.getProviderForMind, List.foldl, registerMind, h2,
    MapL.get_set_self, MapL.get_empty]
  simp [MapL.get_set_self, h2]

/-- Witness for C1 at concrete providers and metadata. -/
theorem C1_conflict_first_last_witness :
    MindRegistry.getMetadata
        (MindRegistry.init ⟨[⟨"p1", [⟨"x", "d1"⟩], fun _ => none⟩,
            ⟨"p2", [⟨"x", "d2"⟩], fun _ => none⟩],
          ConflictStrategy.first, MapL.empty, MapL.empty, MapL.empty⟩).1 "x"
      = some ⟨"x", "d1"⟩
    ∧ MindRegistry.getProviderForMind
        (MindRegistry.init ⟨[⟨"p1", [⟨"x", "d1"⟩], fun _ => none⟩,
            ⟨"p2", [⟨"x", "d2"⟩], fun _ => none⟩],
          ConflictStrategy.first, MapL.empty, MapL.empty, MapL.empty⟩).1 "x"
      = some ⟨"p1", [⟨"x", "d1"⟩], fun _ => none⟩
    ∧ (MindRegistry.init ⟨[⟨"p1", [⟨"x", "d1"⟩], fun _ => none⟩,
            ⟨"p2", [⟨"x", "d2"⟩], fun _ => none⟩],
          ConflictStrategy.first, MapL.empty, MapL.empty, MapL.empty⟩).2
      = [warnSkipped "x" "p2" "p1"]
    ∧ MindRegistry.getMetadata
        (MindRegistry.init ⟨[⟨"p1", [⟨"x", "d1"⟩], fun _ => none⟩,
            ⟨"p2", [⟨"x", "d2"⟩], fun _ => none⟩],
          ConflictStrategy.last, MapL.empty, MapL.empty, MapL.empty⟩).1 "x"
      = some ⟨"x", "d2"⟩
    ∧ MindRegistry.getProviderForMind
        (MindRegistry.init ⟨[⟨"p1", [⟨"x", "d1"⟩], fun _ => none⟩,
            ⟨"p2", [⟨"x", "d2"⟩], fun _ => none⟩],
          ConflictStrategy.last, MapL.empty, MapL.empty, MapL.empty⟩).1 "x"
      = some ⟨"p2", [⟨"x", "d2"⟩], fun _ => none⟩
    ∧ (MindRegistry.init ⟨[⟨"p1", [⟨"x", "d1"⟩], fun _ => none⟩,
            ⟨"p2", [⟨"x", "d2"⟩], fun _ => none⟩],
          ConflictStrategy.last, MapL.empty, MapL.empty, MapL.empty⟩).2
      = [warnOverwritten "x" "p1" "p2"] :=
  C1_conflict_first_last "x" ⟨"x", "d1"⟩ ⟨"x", "d2"⟩ "p1" "p2"
    (fun _ => none) (fun _ => none) rfl rfl

theorem stripDD_cons_ne (c : Char) (hc : c ≠ '.') (l : List Char) :
    stripDD (c :: l) = c :: stripDD l := by
  cases l with
  | nil => rfl
  | cons d rest =>
    have h : ¬ (c = '.' ∧ d = '.') := fun h => hc h.1
    simp [stripDD, h]

theorem hasDD_cons_ne (c : Char) (hc : c ≠ '.') (l : List Char) :
    hasDD (c :: l) = hasDD l := by
  cases l with
  | nil => rfl
  | cons d rest =>
    have h : (c == '.') = false := by simpa using hc
    simp [hasDD, h]

theorem stripDD_no_dd_aux :
    ∀ (n : Nat) (l : List Char), l.length ≤ n →
      hasDD (stripDD l) = false := by
  intro n
  induction n with
  | zero =>
    intro l hl
    have : l = [] := List.eq_nil_of_length_eq_zero (Nat.le_zero.mp hl)
    subst this
    rfl
  | succ n ih =>
    intro l hl
    cases l with
    | nil => rfl
    | cons c l2 =>
      cases l2 with
      | nil => rfl
      | cons d rest =>
        by_cases h : c = '.' ∧ d = '.'
        · rw [show stripDD (c :: d :: rest) = stripDD rest from by
            simp [stripDD, h]]
          refine ih rest ?_
          simp only [List.length_cons] at hl
          omega
        · rw [show stripDD (c :: d :: rest) = c :: stripDD (d :: rest) from by
            simp [stripDD, h]]
          have hlen : (d :: rest).length ≤ n := by
            simp only [List.length_cons] at hl ⊢
            omega
          by_cases hc : c = '.'
          · have hd : d ≠ '.' := fun hd => h ⟨hc, hd⟩
            have hdb : (d == '.') = false := by simpa using hd
            rw [stripDD_cons_ne d hd rest]
            subst hc
            rw [show hasDD ('.' :: d :: stripDD rest)
                = hasDD (d :: stripDD rest) from by simp [hasDD, hdb]]
            rw [← stripDD_cons_ne d hd rest]
            exact ih (d :: rest) hlen
          · rw [hasDD_cons_ne c hc]
            exact ih (d :: rest) hlen

/-- Stripping leaves no occurrence of `..`: matched pairs are removed,
and leftover dots from distinct maximal runs stay separated by the
unmatched characters between them. -/
theorem stripDotDot_no_dd (s : String) :
    hasDD (stripDotDot s).data = false :=
  stripDD_no_dd_aux s.data.length s.data le_rfl

/-- C2: after `init()`, for a name owned by a provider whose `loadMind`
returns `some m`, the first `registry.loadMind` call returns `m` with
exactly one provider invocation, and the second call (from the
resulting state) returns the same `m` from the cache, leaving the state
unchanged and invoking the provider zero times; for a name with no
owning provider — in any state after `init()` and any subsequent
sequence of `loadMind` calls — `loadMind` returns `none` (the function
is total, so no throw) with zero provider invocations. -/
theorem C2_loadMind_memoized_and_missing
    (s : RegState) (name : String) (provider : RProvider) (m : Mind)
    (ops : List String) :
    ((MindRegistry.init s).1.mindProviderMap.get name = some provider →
      provider.loadMind name = some m →
      MindRegistry.loadMind (MindRegistry.init s).1 name
        = (some m,
            { (MindRegistry.init s).1 with
                mindCache :=
                  ((MindRegistry.init s).1).mindCache.set name m }, 1)
      ∧ MindRegistry.loadMind
            (MindRegistry.loadMind (MindRegistry.init s).1 name).2.1 name
        = (some m,
            (MindRegistry.loadMind (MindRegistry.init s).1 name).2.1, 0))
    ∧ ((MindRegistry.init s).1.mindProviderMap.get name = none →
      MindRegistry.loadMind (execLoads (MindRegistry.init s).1 ops) name
        = (none, execLoads (MindRegistry.init s).1 ops, 0)) := by
  constructor
  · intro hp hl
    have hc : (MindRegistry.init s).1.mindCache = MapL.empty :=
      init_mindCache_empty s
    have hfirst :
        MindRegistry.loadMind (MindRegistry.init s).1 name
          = (some m,
              { (MindRegistry.init s).1 with
                  mindCache :=
                    ((MindRegistry.init s).1).mindCache.set name m }, 1) := by
      simp [MindRegistry.loadMind, hc, hp, hl, MapL.has, MapL.get_empty]
    refine ⟨hfirst, ?_⟩
    rw [hfirst]
    have hhas :
        (((MindRegistry.init s).1).mindCache.set name m).has name = true := by
      simp [MapL.has, MapL.get_set_self]
    simp [MindRegistry.loadMind, hhas, MapL.get_set_self]
  · intro hp
    have hpm :
        (execLoads (MindRegistry.init s).1 ops).mindProviderMap
          = (MindRegistry.init s).1.mindProviderMap :=
      (execLoads_fixed_fields ops (MindRegistry.init s).1).1
    have howned : CacheOwned (execLoads (MindRegistry.init s).1 ops) :=
      cacheOwned_execLoads ops _ (init_cacheOwned s)
    have hcache :
        (execLoads (MindRegistry.init s).1 ops).mindCache.has name = false := by
      by_contra hx
      have hx' : (execLoads (MindRegistry.init s).1 ops).mindCache.has name
          = true := by
        revert hx
        cases (execLoads (MindRegistry.init s).1 ops).mindCache.has name <;>
          simp
      have := howned name hx'
      rw [hpm] at this
      rw [MapL.has, hp] at this
      simp at this
    simp [MindRegistry.loadMind, hcache, hpm, hp]

/-- Witness for C2 over a one-provider registry: the owned name
"x" loads and memoizes; the unowned name "y" yields `none`. -/
theorem C2_loadMind_memoized_and_missing_witness :
    (MindRegistry.init
        ⟨[⟨"p1", [⟨"x", "d"⟩],
            fun _ => some ⟨⟨"x", "d"⟩,
              ⟨"x", "d", none, none, none, none, none⟩, "body"⟩⟩],
          ConflictStrategy.first, MapL.empty, MapL.empty,
          MapL.empty⟩).1.mindProviderMap.get "x"
      = some ⟨"p1", [⟨"x", "d"⟩],
          fun _ => some ⟨⟨"x", "d"⟩,
            ⟨"x", "d", none, none, none, none, none⟩, "body"⟩⟩
    ∧ (MindRegistry.loadMind
        (MindRegistry.init
          ⟨[⟨"p1", [⟨"x", "d"⟩],
              fun _ => some ⟨⟨"x", "d"⟩,
                ⟨"x", "d", none, none, none, none, none⟩, "body"⟩⟩],
            ConflictStrategy.first, MapL.empty, MapL.empty,
            MapL.empty⟩).1 "x").1
      = some ⟨⟨"x", "d"⟩, ⟨"x", "d", none, none, none, none, none⟩, "body"⟩
    ∧ (MindRegistry.init
        ⟨[⟨"p1", [⟨"x", "d"⟩],
            fun _ => some ⟨⟨"x", "d"⟩,
              ⟨"x", "d", none, none, none, none, none⟩, "body"⟩⟩],
          ConflictStrategy.first, MapL.empty, MapL.empty,
          MapL.empty⟩).1.mindProviderMap.get "y" = none
    ∧ MindRegistry.loadMind
        (execLoads
          (MindRegistry.init
            ⟨[⟨"p1", [⟨"x", "d"⟩],
                fun _ => some ⟨⟨"x", "d"⟩,
                  ⟨"x", "d", none, none, none, none, none⟩, "body"⟩⟩],
              ConflictStrategy.first, MapL.empty, MapL.empty,
              MapL.empty⟩).1 ["x"]) "y"
      = (none,
          execLoads
            (MindRegistry.init
              ⟨[⟨"p1", [⟨"x", "d"⟩],
                  fun _ => some ⟨⟨"x", "d"⟩,
                    ⟨"x", "d", none, none, none, none, none⟩, "body"⟩⟩],
                ConflictStrategy.first, MapL.empty, MapL.empty,
                MapL.empty⟩).1 ["x"], 0) := by
  refine ⟨rfl, ?_, rfl, ?_⟩
  · rw [((C2_loadMind_memoized_and_missing
      ⟨[⟨"p1", [⟨"x", "d"⟩],
          fun _ => some ⟨⟨"x", "d"⟩,
            ⟨"x", "d", none, none, none, none, none⟩, "body"⟩⟩],
        ConflictStrategy.first, MapL.empty, MapL.empty, MapL.empty⟩
      "x"
      ⟨"p1", [⟨"x", "d"⟩],
        fun _ => some ⟨⟨"x", "d"⟩,
          ⟨"x", "d", none, none, none, none, none⟩, "body"⟩⟩
      ⟨⟨"x", "d"⟩, ⟨"x", "d", none, none, none, none, none⟩, "body"⟩
      []).1 rfl rfl).1]
  · exact (C2_loadMind_memoized_and_missing
      ⟨[⟨"p1", [⟨"x", "d"⟩],
          fun _ => some ⟨⟨"x", "d"⟩,
            ⟨"x", "d", none, none, none, none, none⟩, "body"⟩⟩],
        ConflictStrategy.first, MapL.empty, MapL.empty, MapL.empty⟩
      "y"
      ⟨"p1", [⟨"x", "d"⟩],
        fun _ => some ⟨⟨"x", "d"⟩,
          ⟨"x", "d", none, none, none, none, none⟩, "body"⟩⟩
      ⟨⟨"x", "d"⟩, ⟨"x", "d", none, none, none, none, none⟩, "body"⟩
      ["x"]).2 rfl

theorem init_congr (s t : RegState) (hp : s.providers = t.providers)
    (hs : s.strategy = t.strategy) :
    MindRegistry.init s = MindRegistry.init t := by
  obtain ⟨p, st, a, b, c⟩ := s
  obtain ⟨p', st', a', b', c'⟩ := t
  simp only at hp hs
  subst hp
  subst hs
  rfl

/-- C3: re-invoking `init()` after any sequence of `loadMind` calls
yields exactly the state a first `init()` produces — all three indices
are rebuilt from scratch (the content cache coming out empty), so
`listMinds`, `getMetadata` and `loadMind` are determined solely by the
second discovery pass, with nothing surviving from before. -/
theorem C3_reinit_resets (s : RegState) (ops : List String) :
    MindRegistry.init (execLoads (MindRegistry.init s).1 ops)
      = MindRegistry.init s
    ∧ (MindRegistry.init s).1.mindCache = MapL.empty
    ∧ MindRegistry.listMinds
        (MindRegistry.init (execLoads (MindRegistry.init s).1 ops)).1
      = MindRegistry.listMinds (MindRegistry.init s).1 := by
  have hfix := execLoads_fixed_fields ops (MindRegistry.init s).1
  have hmain : MindRegistry.init (execLoads (MindRegistry.init s).1 ops)
      = MindRegistry.init s :=
    init_congr _ _ hfix.2.2.1 hfix.2.2.2
  exact ⟨hmain, rfl, by rw [hmain]⟩

/-- C4: in every state reachable from `init()` by a sequence of
`loadMind` calls, the metadata cache and the provider-ownership map
have exactly the same key list; `hasMind` equals membership in the
ownership map, `hasMind` implies `getMetadata` is defined, and
`hasMind` is a pure function of the ownership map alone (no provider
structure, hence no I/O, enters its value). -/
theorem registerMind_fold_keys (strategy : ConflictStrategy)
    (provider : RProvider) (minds : List MindMetadata) :
    ∀ acc : MapL MindMetadata × MapL RProvider × List String,
      acc.1.keys = acc.2.1.keys →
      (minds.foldl (registerMind strategy provider) acc).1.keys
        = (minds.foldl (registerMind strategy provider) acc).2.1.keys := by
  induction minds with
  | nil => intro acc hacc; exact hacc
  | cons mind rest ih =>
    intro acc hacc
    refine ih _ ?_
    unfold registerMind
    cases hg : acc.2.1.get mind.name with
    | none =>
      simp only [MapL.keys_set]
      rw [MapL.keys_eq_has_eq acc.1 acc.2.1 mind.name hacc, hacc]
    | some existing =>
      cases strategy with
      | first => exact hacc
      | last =>
        simp only [MapL.keys_set]
        rw [MapL.keys_eq_has_eq acc.1 acc.2.1 mind.name hacc, hacc]

theorem providers_fold_keys (strategy : ConflictStrategy)
    (provs : List RProvider) :
    ∀ acc : MapL MindMetadata × MapL RProvider × List String,
      acc.1.keys = acc.2.1.keys →
      (provs.foldl
          (fun acc provider =>
            provider.discover.foldl (registerMind strategy provider) acc)
          acc).1.keys
        = (provs.foldl
            (fun acc provider =>
              provider.discover.foldl (registerMind strategy provider) acc)
            acc).2.1.keys := by
  induction provs with
  | nil => intro acc hacc; exact hacc
  | cons provider rest ih =>
    intro acc hacc
    exact ih _ (registerMind_fold_keys strategy provider provider.discover
      acc hacc)

theorem init_keys_eq (s : RegState) :
    (MindRegistry.init s).1.metadataCache.keys
      = (MindRegistry.init s).1.mindProviderMap.keys :=
  providers_fold_keys s.strategy s.providers
    (MapL.empty, MapL.empty, []) rfl

theorem C4_hasMind_key_agreement (s : RegState) (ops : List String)
    (name : String) :
    (execLoads (MindRegistry.init s).1 ops).metadataCache.keys
      = (execLoads (MindRegistry.init s).1 ops).mindProviderMap.keys
    ∧ MindRegistry.hasMind (execLoads (MindRegistry.init s).1 ops) name
      = (execLoads (MindRegistry.init s).1 ops).mindProviderMap.has name
    ∧ (MindRegistry.hasMind (execLoads (MindRegistry.init s).1 ops) name
          = true →
        (MindRegistry.getMetadata (execLoads (MindRegistry.init s).1 ops)
            name).isSome = true)
    ∧ (∀ t : RegState,
        t.mindProviderMap
            = (execLoads (MindRegistry.init s).1 ops).mindProviderMap →
        MindRegistry.hasMind t name
          = MindRegistry.hasMind (execLoads (MindRegistry.init s).1 ops)
              name) := by
  have hinit := init_keys_eq s
  have hfix := execLoads_fixed_fields ops (MindRegistry.init s).1
  have hkeys :
      (execLoads (MindRegistry.init s).1 ops).metadataCache.keys
        = (execLoads (MindRegistry.init s).1 ops).mindProviderMap.keys := by
    rw [hfix.1, hfix.2.1]
    exact hinit
  refine ⟨hkeys, rfl, ?_, ?_⟩
  · intro hh
    have := MapL.keys_eq_has_eq
      (execLoads (MindRegistry.init s).1 ops).metadataCache
      (execLoads (MindRegistry.init s).1 ops).mindProviderMap name hkeys
    rw [MindRegistry.hasMind] at hh
    rw [MindRegistry.getMetadata]
    have hmc : (execLoads (MindRegistry.init s).1 ops).metadataCache.has name
        = true := by rw [this, hh]
    exact hmc
  · intro t ht
    rw [MindRegistry.hasMind, MindRegistry.hasMind, ht]

/-- Witness for C4 over a one-provider registry and one cached load. -/
theorem C4_hasMind_key_agreement_witness :
    (execLoads
        (MindRegistry.init
          ⟨[⟨"p1", [⟨"x", "d"⟩], fun _ => none⟩], ConflictStrategy.first,
            MapL.empty, MapL.empty, MapL.empty⟩).1 ["x"]).metadataCache.keys
      = (execLoads
          (MindRegistry.init
            ⟨[⟨"p1", [⟨"x", "d"⟩], fun _ => none⟩], ConflictStrategy.first,
              MapL.empty, MapL.empty,
              MapL.empty⟩).1 ["x"]).mindProviderMap.keys
    ∧ (MindRegistry.getMetadata
        (execLoads
          (MindRegistry.init
            ⟨[⟨"p1", [⟨"x", "d"⟩], fun _ => none⟩], ConflictStrategy.first,
              MapL.empty, MapL.empty, MapL.empty⟩).1 ["x"]) "x").isSome
      = true := by
  refine ⟨(C4_hasMind_key_agreement
    ⟨[⟨"p1", [⟨"x", "d"⟩], fun _ => none⟩], ConflictStrategy.first,
      MapL.empty, MapL.empty, MapL.empty⟩ ["x"] "x").1, ?_⟩
  exact (C4_hasMind_key_agreement
    ⟨[⟨"p1", [⟨"x", "d"⟩], fun _ => none⟩], ConflictStrategy.first,
      MapL.empty, MapL.empty, MapL.empty⟩ ["x"] "x").2.2.1 rfl

/-- C6: for a mind in the directory index, `readResource` strips every
occurrence of `..` from the path (the stripped path contains none) and
consults only the path obtained by resolving the stripped path against
the mind's directory; on the traversal input `../../../etc/passwd` the
stripped path is `///etc/passwd`; when the resolved path names no
existing file the result is `undefined`, and a failing read also yields
`undefined` (the function is total, so it never raises). -/
theorem C6_readResource_traversal_neutralized (st : FSState) (env : FSEnv)
    (mindName path mindDir : String)
    (hidx : st.mindDirs.get mindName = some mindDir) :
    hasDD (stripDotDot path).data = false
    ∧ FileSystemProvider.readResource st env mindName path
      = (if env.fileExists (mindDir ++ "/" ++ stripDotDot path)
         then env.readFile (mindDir ++ "/" ++ stripDotDot path) else none)
    ∧ stripDotDot "../../../etc/passwd" = "///etc/passwd"
    ∧ (env.fileExists (mindDir ++ "/" ++ stripDotDot path) = false →
        FileSystemProvider.readResource st env mindName path = none)
    ∧ (env.readFile (mindDir ++ "/" ++ stripDotDot path) = none →
        FileSystemProvider.readResource st env mindName path = none) := by
  have hmain : FileSystemProvider.readResource st env mindName path
      = (if env.fileExists (mindDir ++ "/" ++ stripDotDot path)
         then env.readFile (mindDir ++ "/" ++ stripDotDot path) else none) := by
    simp [FileSystemProvider.readResource, hidx]
  refine ⟨stripDotDot_no_dd path, hmain, rfl, ?_, ?_⟩
  · intro hf
    rw [hmain, hf]
    simp
  · intro hr
    rw [hmain, hr]
    cases env.fileExists (mindDir ++ "/" ++ stripDotDot path) <;> simp

/-- Witness for C6 at a concrete index and the traversal input. -/
theorem C6_readResource_traversal_neutralized_witness :
    hasDD (stripDotDot "../../../etc/passwd").data = false
    ∧ FileSystemProvider.readResource
        ⟨"/b", MapL.empty.set "m" "/b/m"⟩
        ⟨fun _ => false, fun _ => none, fun _ _ _ => SpawnOutcome.exn ""⟩
        "m" "../../../etc/passwd"
      = (if (fun (_ : String) => false)
            ("/b/m" ++ "/" ++ stripDotDot "../../../etc/passwd")
         then (fun (_ : String) => (none : Option String))
            ("/b/m" ++ "/" ++ stripDotDot "../../../etc/passwd")
         else none)
    ∧ stripDotDot "../../../etc/passwd" = "///etc/passwd"
    ∧ FileSystemProvider.readResource
        ⟨"/b", MapL.empty.set "m" "/b/m"⟩
        ⟨fun _ => false, fun _ => none, fun _ _ _ => SpawnOutcome.exn ""⟩
        "m" "../../../etc/passwd" = none := by
  have h := C6_readResource_traversal_neutralized
    ⟨"/b", MapL.empty.set "m" "/b/m"⟩
    ⟨fun _ => false, fun _ => none, fun _ _ _ => SpawnOutcome.exn ""⟩
    "m" "../../../etc/passwd" "/b/m" (MapL.get_set_self MapL.empty "m" "/b/m")
  exact ⟨h.1, h.2.1, h.2.2.1, h.2.2.2.1 rfl⟩

/-- C5: `executeScript` is a total function into `ScriptResult` (never
raises).  For an unknown mind it returns the not-found failure result
(not `undefined`); for an unsupported extension it returns a failure
result whose value does not depend on the spawn function (no spawn
attempt); for a missing script file likewise; when spawning throws, the
exception text lands in `stderr` of a failure result; and for a process
that runs to exit, `success = (exitCode == 0)` with trimmed `stdout`
and `stderr`. -/
theorem C5_executeScript_never_raises (st : FSState) (env : FSEnv)
    (mindName scriptPath mindDir msg out err : String)
    (args : List String) (code : Int) :
    (st.mindDirs.get mindName = none →
      FileSystemProvider.executeScript st env mindName scriptPath args
        = ⟨false, "", "Mind \"" ++ mindName ++ "\" not found", 1⟩)
    ∧ (st.mindDirs.get mindName = some mindDir →
       scriptExt scriptPath ≠ some "ts" → scriptExt scriptPath ≠ some "js" →
       scriptExt scriptPath ≠ some "sh" → scriptExt scriptPath ≠ some "py" →
       (FileSystemProvider.executeScript st env mindName scriptPath
           args).success = false
       ∧ (FileSystemProvider.executeScript st env mindName scriptPath
           args).exitCode = 1
       ∧ ∀ sp, FileSystemProvider.executeScript st
             ⟨env.fileExists, env.readFile, sp⟩ mindName scriptPath args
           = FileSystemProvider.executeScript st env mindName scriptPath
               args)
    ∧ (st.mindDirs.get mindName = some mindDir →
       (scriptExt scriptPath = some "ts" ∨ scriptExt scriptPath = some "js"
        ∨ scriptExt scriptPath = some "sh"
        ∨ scriptExt scriptPath = some "py") →
       env.fileExists (mindDir ++ "/scripts/" ++ stripDotDot scriptPath)
           = false →
       FileSystemProvider.executeScript st env mindName scriptPath args
         = ⟨false, "", "Script not found: scripts/" ++ scriptPath, 1⟩
       ∧ ∀ sp, FileSystemProvider.executeScript st
             ⟨env.fileExists, env.readFile, sp⟩ mindName scriptPath args
           = FileSystemProvider.executeScript st env mindName scriptPath
               args)
    ∧ (st.mindDirs.get mindName = some mindDir →
       (scriptExt scriptPath = some "ts" ∨ scriptExt scriptPath = some "js"
        ∨ scriptExt scriptPath = some "sh"
        ∨ scriptExt scriptPath = some "py") →
       env.fileExists (mindDir ++ "/scripts/" ++ stripDotDot scriptPath)
           = true →
       (∀ c d e, env.spawn c d e = SpawnOutcome.exn msg) →
       FileSystemProvider.executeScript st env mindName scriptPath args
         = ⟨false, "", "Execution failed: " ++ msg, 1⟩)
    ∧ (st.mindDirs.get mindName = some mindDir →
       (scriptExt scriptPath = some "ts" ∨ scriptExt scriptPath = some "js"
        ∨ scriptExt scriptPath = some "sh"
        ∨ scriptExt scriptPath = some "py") →
       env.fileExists (mindDir ++ "/scripts/" ++ stripDotDot scriptPath)
           = true →
       (∀ c d e, env.spawn c d e = SpawnOutcome.ok out err code) →
       FileSystemProvider.executeScript st env mindName scriptPath args
         = ⟨code == 0, jsTrim out, jsTrim err, code⟩
       ∧ ((FileSystemProvider.executeScript st env mindName scriptPath
             args).success = true ↔ code = 0)) := by
  refine ⟨?_, ?_, ?_, ?_, ?_⟩
  · intro h
    simp [FileSystemProvider.executeScript, h]
  · intro hidx h1 h2 h3 h4
    have h12 : ¬ (scriptExt scriptPath = some "ts"
        ∨ scriptExt scriptPath = some "js") := by tauto
    refine ⟨?_, ?_, ?_⟩
    · simp [FileSystemProvider.executeScript, hidx, h12, h3, h4]
    · simp [FileSystemProvider.executeScript, hidx, h12, h3, h4]
    · intro sp
      simp [FileSystemProvider.executeScript, hidx, h12, h3, h4]
  · intro hidx hext hfe
    constructor
    · rcases hext with h | h | h | h <;>
        simp [FileSystemProvider.executeScript, hidx, h, hfe]
    · intro sp
      rcases hext with h | h | h | h <;>
        simp [FileSystemProvider.executeScript, hidx, h, hfe]
  · intro hidx hext hfe hsp
    rcases hext with h | h | h | h <;>
      simp [FileSystemProvider.executeScript, hidx, h, hfe, hsp]
  · intro hidx hext hfe hsp
    constructor
    · rcases hext with h | h | h | h <;>
        simp [FileSystemProvider.executeScript, hidx, h, hfe, hsp]
    · rcases hext with h | h | h | h <;>
        simp [FileSystemProvider.executeScript, hidx, h, hfe, hsp]

/-- Witness for C5: each failure and success shape at concrete inputs. -/
theorem C5_executeScript_never_raises_witness :
    FileSystemProvider.executeScript ⟨"/b", MapL.empty⟩
        ⟨fun _ => true, fun _ => none,
          fun _ _ _ => SpawnOutcome.ok "out " " err" 0⟩ "m" "run.ts" []
      = ⟨false, "", "Mind \"" ++ "m" ++ "\" not found", 1⟩
    ∧ (FileSystemProvider.executeScript ⟨"/b", MapL.empty.set "m" "/b/m"⟩
        ⟨fun _ => true, fun _ => none,
          fun _ _ _ => SpawnOutcome.ok "out " " err" 0⟩ "m" "x.xyz"
        []).success = false
    ∧ FileSystemProvider.executeScript ⟨"/b", MapL.empty.set "m" "/b/m"⟩
        ⟨fun _ => false, fun _ => none,
          fun _ _ _ => SpawnOutcome.ok "out " " err" 0⟩ "m" "run.ts" []
      = ⟨false, "", "Script not found: scripts/" ++ "run.ts", 1⟩
    ∧ FileSystemProvider.executeScript ⟨"/b", MapL.empty.set "m" "/b/m"⟩
        ⟨fun _ => true, fun _ => none,
          fun _ _ _ => SpawnOutcome.exn "boom"⟩ "m" "run.ts" []
      = ⟨false, "", "Execution failed: " ++ "boom", 1⟩
    ∧ FileSystemProvider.executeScript ⟨"/b", MapL.empty.set "m" "/b/m"⟩
        ⟨fun _ => true, fun _ => none,
          fun _ _ _ => SpawnOutcome.ok "out " " err" 0⟩ "m" "run.ts" []
      = ⟨(0 : Int) == 0, jsTrim "out ", jsTrim " err", 0⟩ := by
  refine ⟨?_, ?_, ?_, ?_, ?_⟩
  · exact (C5_executeScript_never_raises ⟨"/b", MapL.empty⟩
      ⟨fun _ => true, fun _ => none,
        fun _ _ _ => SpawnOutcome.ok "out " " err" 0⟩
      "m" "run.ts" "" "" "" "" [] 0).1 rfl
  · exact ((C5_executeScript_never_raises ⟨"/b", MapL.empty.set "m" "/b/m"⟩
      ⟨fun _ => true, fun _ => none,
        fun _ _ _ => SpawnOutcome.ok "out " " err" 0⟩
      "m" "x.xyz" "/b/m" "" "" "" [] 0).2.1 rfl
      (by decide) (by decide) (by decide) (by decide)).1
  · exact ((C5_executeScript_never_raises ⟨"/b", MapL.empty.set "m" "/b/m"⟩
      ⟨fun _ => false, fun _ => none,
        fun _ _ _ => SpawnOutcome.ok "out " " err" 0⟩
      "m" "run.ts" "/b/m" "" "" "" [] 0).2.2.1 rfl
      (Or.inl (by decide)) rfl).1
  · exact (C5_executeScript_never_raises ⟨"/b", MapL.empty.set "m" "/b/m"⟩
      ⟨fun _ => true, fun _ => none,
        fun _ _ _ => SpawnOutcome.exn "boom"⟩
      "m" "run.ts" "/b/m" "boom" "" "" [] 0).2.2.2.1 rfl
      (Or.inl (by decide)) rfl (fun _ _ _ => rfl)
  · exact ((C5_executeScript_never_raises ⟨"/b", MapL.empty.set "m" "/b/m"⟩
      ⟨fun _ => true, fun _ => none,
        fun _ _ _ => SpawnOutcome.ok "out " " err" 0⟩
      "m" "run.ts" "/b/m" "" "out " " err" [] 0).2.2.2.2 rfl
      (Or.inl (by decide)) rfl (fun _ _ _ => rfl)).1

theorem notNameChar_of_upper (c : Char) (h1 : 'A' ≤ c) (h2 : c ≤ 'Z') :
    isLowerAlnum c = false ∧ c ≠ '-' := by
  rw [Char.le_def] at h1 h2
  have hA : 65 ≤ c.toNat := h1
  have hZ : c.toNat ≤ 90 := h2
  constructor
  · rw [isLowerAlnum, Bool.or_eq_false_iff, Bool.and_eq_false_iff,
      Bool.and_eq_false_iff]
    constructor
    · left
      rw [decide_eq_false_iff_not, Char.le_def]
      intro hy
      have : 97 ≤ c.toNat := hy
      omega
    · right
      rw [decide_eq_false_iff_not, Char.le_def]
      intro hy
      have : c.toNat ≤ 57 := hy
      omega
  · intro he
    subst he
    have : ('-').toNat = 45 := rfl
    omega

theorem nameDFA_bad_char :
    ∀ (l : List Char) (flag : Bool) (c : Char), c ∈ l →
      isLowerAlnum c = false → c ≠ '-' → nameDFA flag l = false := by
  intro l
  induction l with
  | nil => intro flag c hc; simp at hc
  | cons d rest ih =>
    intro flag c hc hla hdash
    rcases List.mem_cons.mp hc with he | he
    · subst he
      rw [nameDFA, hla]
      simp only [Bool.false_eq_true, if_false]
      cases flag with
      | true => simp
      | false =>
        have : ¬ (c = '-') := hdash
        simp [this]
    · rw [nameDFA]
      by_cases hd : isLowerAlnum d
      · simp only [hd, if_true]
        exact ih false c he hla hdash
      · simp only [Bool.not_eq_true] at hd
        rw [hd]
        simp only [Bool.false_eq_true, if_false]
        cases flag with
        | true => simp
        | false =>
          by_cases hdd : d = '-'
          · simp only [hdd, if_pos rfl, if_false]
            exact ih true c he hla hdash
          · simp [hdd]

theorem nameDFA_last_dash :
    ∀ (l : List Char) (flag : Bool), l.getLast? = some '-' →
      nameDFA flag l = false := by
  intro l
  induction l with
  | nil => intro flag h; simp at h
  | cons d rest ih =>
    intro flag h
    cases rest with
    | nil =>
      simp only [List.getLast?_singleton, Option.some.injEq] at h
      subst h
      cases flag <;> decide
    | cons e rest' =>
      have hlast : (e :: rest').getLast? = some '-' := by
        rwa [List.getLast?_cons_cons] at h
      rw [nameDFA]
      by_cases hd : isLowerAlnum d
      · simp only [hd, if_true]
        exact ih false hlast
      · simp only [Bool.not_eq_true] at hd
        rw [hd]
        simp only [Bool.false_eq_true, if_false]
        cases flag with
        | true => simp
        | false =>
          by_cases hdd : d = '-'
          · simp only [hdd, if_pos rfl, if_false]
            exact ih true hlast
          · simp [hdd]

theorem nameDFA_double_dash :
    ∀ (l : List Char) (flag : Bool), hasHH l = true →
      nameDFA flag l = false := by
  intro l
  induction l with
  | nil => intro flag h; simp [hasHH] at h
  | cons d rest ih =>
    intro flag h
    cases rest with
    | nil => simp [hasHH] at h
    | cons e rest' =>
      rw [hasHH, Bool.or_eq_true] at h
      rcases h with h | h
      · rw [Bool.and_eq_true, beq_iff_eq, beq_iff_eq] at h
        obtain ⟨hd, he⟩ := h
        subst hd
        subst he
        have hla : isLowerAlnum '-' = false := by decide
        rw [nameDFA, hla]
        simp only [Bool.false_eq_true, if_false]
        cases flag with
        | true => simp
        | false =>
          have h1 : ¬ (false = true) := by simp
          rw [if_neg h1, if_pos trivial, nameDFA, hla]
          simp
      · rw [nameDFA]
        by_cases hd : isLowerAlnum d
        · simp only [hd, if_true]
          exact ih false h
        · simp only [Bool.not_eq_true] at hd
          rw [hd]
          simp only [Bool.false_eq_true, if_false]
          cases flag with
          | true => simp
          | false =>
            by_cases hdd : d = '-'
            · simp only [hdd, if_pos rfl, if_false]
              exact ih true h
            · simp [hdd]

theorem findDelim_decomp :
    ∀ (n : Nat) (l a b : List Char), l.length ≤ n →
      findDelim l = some (a, b) →
      l = a ++ '\n' :: '-' :: '-' :: '-' :: '\n' :: b := by
  intro n
  induction n with
  | zero =>
    intro l a b hl h
    have : l = [] := List.eq_nil_of_length_eq_zero (Nat.le_zero.mp hl)
    subst this
    rw [show findDelim ([] : List Char) = none from rfl] at h
    exact Option.noConfusion h
  | succ n ih =>
    intro l a b hl h
    rw [findDelim.eq_def] at h
    split at h
    · rename_i x rest
      simp only [Option.some.injEq, Prod.mk.injEq] at h
      obtain ⟨ha, hb⟩ := h
      subst ha
      subst hb
      rfl
    · rename_i x1 c rest hneg
      cases hrec : findDelim rest with
      | none => rw [hrec] at h; exact Option.noConfusion h
      | some p =>
        rw [hrec] at h
        obtain ⟨p1, p2⟩ := p
        have h' : (c :: p1, p2) = (a, b) := Option.some.inj h
        have ha : c :: p1 = a := congrArg Prod.fst h'
        have hb : p2 = b := congrArg Prod.snd h'
        have hr : rest = p1 ++ '\n' :: '-' :: '-' :: '-' :: '\n' :: b := by
          refine ih rest p1 b ?_ (by rw [hrec, hb])
          simp only [List.length_cons] at hl
          omega
        rw [← ha, hr]
        rfl
    · exact Option.noConfusion h

theorem findDelim_append_isSome :
    ∀ (fmText rest' : List Char),
      (findDelim
          (fmText ++ '\n' :: '-' :: '-' :: '-' :: '\n' :: rest')).isSome
        = true := by
  intro fmText
  induction fmText with
  | nil => intro rest'; rfl
  | cons c fmText' ih =>
    intro rest'
    rw [findDelim.eq_def]
    split
    · rfl
    · rename_i x1 c2 rest2 hneg heq
      rw [List.cons_append] at heq
      injection heq with hc hrest
      subst hrest
      have hi := ih rest'
      cases hfd : findDelim (fmText' ++ '\n' :: '-' :: '-' :: '-' :: '\n' :: rest') with
      | none => rw [hfd] at hi; exact absurd hi (by simp)
      | some p => rfl
    · rename_i x heq
      rw [List.cons_append] at heq
      exact absurd heq (by simp)

/-- The structural frontmatter regex matches exactly the documents that
decompose as `---\n` + frontmatter + `\n---\n` + body. -/
theorem splitFM_eq_none_iff (l : List Char) :
    splitFM l = none ↔
      ¬ ∃ a b : List Char,
        l = '-' :: '-' :: '-' :: '\n'
          :: (a ++ '\n' :: '-' :: '-' :: '-' :: '\n' :: b) := by
  constructor
  · intro h
    rintro ⟨a, b, rfl⟩
    rw [show splitFM ('-' :: '-' :: '-' :: '\n'
        :: (a ++ '\n' :: '-' :: '-' :: '-' :: '\n' :: b))
        = findDelim (a ++ '\n' :: '-' :: '-' :: '-' :: '\n' :: b)
        from rfl] at h
    have := findDelim_append_isSome a b
    rw [h] at this
    simp at this
  · intro h
    cases hs : splitFM l with
    | none => rfl
    | some p =>
      exfalso
      obtain ⟨a, b⟩ := p
      rw [splitFM.eq_def] at hs
      split at hs
      · rename_i rest
        have hr := findDelim_decomp rest.length rest a b le_rfl hs
        exact h ⟨a, b, by rw [hr]⟩
      · exact Option.noConfusion hs

/-- C7: for every document whose frontmatter block decodes to a record
satisfying the schema, `parseMindMd` succeeds, the returned metadata
`name` and `description` equal the decoded frontmatter's fields, and
the returned content is the document body — the part after the
frontmatter block — trimmed of leading and trailing whitespace. -/
theorem C7_parse_valid_document (content : String)
    (fm : MapL (Option String)) (body : String) (vfm : MindFrontmatter)
    (hpf : parseFrontmatter content = Except.ok (fm, body))
    (hs : schemaParse fm = some vfm) :
    parseMindMd content
      = Except.ok ⟨⟨vfm.name, vfm.description⟩, vfm, body⟩
    ∧ (∃ fmText rawBody : List Char,
        content.data = '-' :: '-' :: '-' :: '\n'
          :: (fmText ++ '\n' :: '-' :: '-' :: '-' :: '\n' :: rawBody)
        ∧ fm = decodeYaml fmText
        ∧ body = jsTrim (String.mk rawBody))
    ∧ fmVal fm "name" = some vfm.name
    ∧ fmVal fm "description" = some vfm.description := by
  refine ⟨?_, ?_, ?_⟩
  · simp [parseMindMd, hpf, hs]
  · cases hsp : splitFM content.data with
    | none => simp [parseFrontmatter, hsp] at hpf
    | some p =>
      obtain ⟨fmc, bodyc⟩ := p
      have hfb : fm = decodeYaml fmc ∧ body = jsTrim (String.mk bodyc) := by
        rw [parseFrontmatter, hsp] at hpf
        have h' : ((decodeYaml fmc, jsTrim ⟨bodyc⟩) :
            MapL (Option String) × String) = (fm, body) :=
          Except.ok.inj hpf
        exact ⟨(congrArg Prod.fst h').symm, (congrArg Prod.snd h').symm⟩
      rw [splitFM.eq_def] at hsp
      split at hsp
      · rename_i rest heq
        have hr := findDelim_decomp rest.length rest fmc bodyc le_rfl hsp
        exact ⟨fmc, bodyc, by rw [heq, hr], hfb.1, hfb.2⟩
      · exact Option.noConfusion hsp
  · cases hn : fmVal fm "name" with
    | none =>
      simp only [schemaParse, hn] at hs
      exact Option.noConfusion hs
    | some n =>
      cases hd : fmVal fm "description" with
      | none =>
        simp only [schemaParse, hn, hd] at hs
        exact Option.noConfusion hs
      | some d =>
        simp only [schemaParse, hn, hd] at hs
        by_cases hcond : schemaChecks fm n d = true
        · rw [if_pos hcond] at hs
          have hv := Option.some.inj hs
          rw [← hv]
          exact ⟨rfl, rfl⟩
        · rw [if_neg hcond] at hs
          exact Option.noConfusion hs

/-- Witness for C7 at a concrete two-field document. -/
theorem C7_parse_valid_document_witness :
    parseMindMd "---\nname: m1\ndescription: d\n---\n\nbody\n"
      = Except.ok ⟨⟨"m1", "d"⟩,
          ⟨"m1", "d", none, none, none, none, none⟩, "body"⟩
    ∧ fmVal ⟨[("name", some "m1"), ("description", some "d")]⟩ "name"
        = some "m1" := by
  have h := C7_parse_valid_document
    "---\nname: m1\ndescription: d\n---\n\nbody\n"
    ⟨[("name", some "m1"), ("description", some "d")]⟩ "body"
    ⟨"m1", "d", none, none, none, none, none⟩ rfl rfl
  exact ⟨h.1, h.2.2.1⟩

/-- C10: `parseMindMd` raises the structural missing-frontmatter error
for exactly the documents that do not decompose as `---\n`, then a
frontmatter block, then a `\n---\n` delimiter, then a body — documents
with CRLF line endings, a leading blank line, a byte-order mark, or a
closing delimiter not followed by a newline are all rejected. -/
theorem C10_missing_frontmatter_error (content : String) :
    (parseMindMd content
        = Except.error "Invalid MIND.md: missing YAML frontmatter"
      ↔ ¬ ∃ a b : List Char,
          content.data = '-' :: '-' :: '-' :: '\n'
            :: (a ++ '\n' :: '-' :: '-' :: '-' :: '\n' :: b))
    ∧ parseMindMd "---\r\nname: a\ndescription: b\r\n---\r\nbody"
        = Except.error "Invalid MIND.md: missing YAML frontmatter"
    ∧ parseMindMd "\n---\nname: a\ndescription: b\n---\nbody"
        = Except.error "Invalid MIND.md: missing YAML frontmatter"
    ∧ parseMindMd "\uFEFF---\nname: a\ndescription: b\n---\nbody"
        = Except.error "Invalid MIND.md: missing YAML frontmatter"
    ∧ parseMindMd "---\nname: a\ndescription: b\n---"
        = Except.error "Invalid MIND.md: missing YAML frontmatter" := by
  have h1 : parseMindMd content
      = Except.error "Invalid MIND.md: missing YAML frontmatter"
      ↔ splitFM content.data = none := by
    constructor
    · intro h
      cases hsp : splitFM content.data with
      | none => rfl
      | some p =>
        exfalso
        obtain ⟨fmc, bodyc⟩ := p
        simp only [parseMindMd, parseFrontmatter, hsp] at h
        cases hv : schemaParse (decodeYaml fmc) with
        | none =>
          simp only [hv] at h
          have := Except.error.inj h
          exact absurd this (by decide)
        | some vfm =>
          simp only [hv] at h
          exact Except.noConfusion h
    · intro h
      simp [parseMindMd, parseFrontmatter, h]
  refine ⟨h1.trans (splitFM_eq_none_iff content.data), rfl, rfl, rfl, rfl⟩

/-- Witness for C10: the failing document has no frontmatter
decomposition. -/
theorem C10_missing_frontmatter_error_witness :
    ¬ ∃ a b : List Char,
      ("x" : String).data = '-' :: '-' :: '-' :: '\n'
        :: (a ++ '\n' :: '-' :: '-' :: '-' :: '\n' :: b) :=
  (C10_missing_frontmatter_error "x").1.mp rfl

/-- C8: schema validation of `name` accepts exactly the strings
matching `^[a-z0-9]+(-[a-z0-9]+)*$` of length 1 to 64; strings with an
uppercase letter, an underscore, a leading or trailing hyphen, or
consecutive hyphens are rejected, as are strings of length 0 or above
64; `description` is accepted exactly when non-empty and at most 1024
characters. -/
theorem C8_schema_field_validation (s d : String) :
    (nameValid s = true
      ↔ (nameRegexMatch s = true ∧ 1 ≤ s.length ∧ s.length ≤ 64))
    ∧ (∀ c, c ∈ s.data → 'A' ≤ c → c ≤ 'Z' → nameValid s = false)
    ∧ ('_' ∈ s.data → nameValid s = false)
    ∧ (s.data.head? = some '-' → nameValid s = false)
    ∧ (s.data.getLast? = some '-' → nameValid s = false)
    ∧ (hasHH s.data = true → nameValid s = false)
    ∧ (s.length = 0 → nameValid s = false)
    ∧ (64 < s.length → nameValid s = false)
    ∧ (descriptionValid d = true ↔ 1 ≤ d.length ∧ d.length ≤ 1024) := by
  refine ⟨?_, ?_, ?_, ?_, ?_, ?_, ?_, ?_, ?_⟩
  · constructor
    · intro h
      rw [nameValid] at h
      simp only [Bool.and_eq_true, decide_eq_true_iff] at h
      exact ⟨h.2, h.1.1, h.1.2⟩
    · intro h
      rw [nameValid]
      simp only [Bool.and_eq_true, decide_eq_true_iff]
      exact ⟨⟨h.2.1, h.2.2⟩, h.1⟩
  · intro c hc h1 h2
    obtain ⟨hla, hd⟩ := notNameChar_of_upper c h1 h2
    have hfalse : nameRegexMatch s = false :=
      nameDFA_bad_char s.data true c hc hla hd
    simp [nameValid, hfalse]
  · intro hc
    have hla : isLowerAlnum '_' = false := by decide
    have hd : ('_' : Char) ≠ '-' := by decide
    have hfalse : nameRegexMatch s = false :=
      nameDFA_bad_char s.data true '_' hc hla hd
    simp [nameValid, hfalse]
  · intro h
    have hfalse : nameRegexMatch s = false := by
      rw [nameRegexMatch]
      cases heq : s.data with
      | nil => rw [heq] at h; simp at h
      | cons c rest =>
        rw [heq] at h
        simp only [List.head?_cons, Option.some.injEq] at h
        subst h
        have hla : isLowerAlnum '-' = false := by decide
        rw [nameDFA, hla]
        simp
    simp [nameValid, hfalse]
  · intro h
    have hfalse : nameRegexMatch s = false :=
      nameDFA_last_dash s.data true h
    simp [nameValid, hfalse]
  · intro h
    have hfalse : nameRegexMatch s = false :=
      nameDFA_double_dash s.data true h
    simp [nameValid, hfalse]
  · intro h
    simp [nameValid, h]
  · intro h
    have hn : ¬ (s.length ≤ 64) := by omega
    simp [nameValid, hn]
  · rw [descriptionValid]
    simp [Bool.and_eq_true, decide_eq_true_iff]

/-- Witness for C8 on representative accepted and rejected strings. -/
theorem C8_schema_field_validation_witness :
    nameValid "abc-123" = true
    ∧ nameValid "Abc" = false
    ∧ nameValid "a_b" = false
    ∧ nameValid "-abc" = false
    ∧ nameValid "abc-" = false
    ∧ nameValid "a--b" = false
    ∧ nameValid "" = false
    ∧ nameValid
        "aaaaaaaaaaaaaaaaaaaaaaaaaaaaaaaaaaaaaaaaaaaaaaaaaaaaaaaaaaaaaaaaa"
        = false
    ∧ descriptionValid "d" = true := by
  refine ⟨?_, ?_, ?_, ?_, ?_, ?_, ?_, ?_, ?_⟩
  · exact (C8_schema_field_validation "abc-123" "d").1.mpr
      ⟨by decide, by decide, by decide⟩
  · exact (C8_schema_field_validation "Abc" "d").2.1 'A'
      (by decide) (by decide) (by decide)
  · exact (C8_schema_field_validation "a_b" "d").2.2.1 (by decide)
  · exact (C8_schema_field_validation "-abc" "d").2.2.2.1 (by decide)
  · exact (C8_schema_field_validation "abc-" "d").2.2.2.2.1 (by decide)
  · exact (C8_schema_field_validation "a--b" "d").2.2.2.2.2.1 (by decide)
  · exact (C8_schema_field_validation "" "d").2.2.2.2.2.2.1 (by decide)
  · exact (C8_schema_field_validation
      "aaaaaaaaaaaaaaaaaaaaaaaaaaaaaaaaaaaaaaaaaaaaaaaaaaaaaaaaaaaaaaaaa"
      "d").2.2.2.2.2.2.2.1 (by decide)
  · exact (C8_schema_field_validation "x" "d").2.2.2.2.2.2.2.2.mpr
      ⟨by decide, by decide⟩

/-- C9: when a mind name is absent from the directory index,
`readResource` returns `undefined` even if `{baseDir}/{name}/MIND.md`
exists on disk (no fallback probe, unlike `hasMind`, which is true in
that situation); a successful fallback `loadMind` inserts the name into
the index (mapped to `{baseDir}/{name}`), after which `readResource`
for that mind resolves existing files. -/
theorem C9_readResource_no_fallback (st : FSState) (env : FSEnv)
    (name path content : String) (mind : Mind)
    (hidx : st.mindDirs.get name = none) :
    FileSystemProvider.readResource st env name path = none
    ∧ (env.fileExists (st.baseDir ++ "/" ++ name ++ "/MIND.md") = true →
        FileSystemProvider.hasMind st env name = true)
    ∧ (env.fileExists (st.baseDir ++ "/" ++ name ++ "/MIND.md") = true →
       env.readFile (st.baseDir ++ "/" ++ name ++ "/MIND.md")
           = some content →
       parseMindMd content = Except.ok mind →
       FileSystemProvider.loadMind st env name
         = (some mind,
            { st with mindDirs :=
                st.mindDirs.set name (st.baseDir ++ "/" ++ name) })
       ∧ ((FileSystemProvider.loadMind st env name).2).mindDirs.get name
           = some (st.baseDir ++ "/" ++ name)
       ∧ (∀ p, env.fileExists
             (st.baseDir ++ "/" ++ name ++ "/" ++ stripDotDot p) = true →
           FileSystemProvider.readResource
               (FileSystemProvider.loadMind st env name).2 env name p
             = env.readFile
                 (st.baseDir ++ "/" ++ name ++ "/" ++ stripDotDot p))) := by
  refine ⟨?_, ?_, ?_⟩
  · simp [FileSystemProvider.readResource, hidx]
  · intro hf
    simp [FileSystemProvider.hasMind, hf]
  · intro hf hr hp
    have hload : FileSystemProvider.loadMind st env name
        = (some mind,
           { st with mindDirs :=
               st.mindDirs.set name (st.baseDir ++ "/" ++ name) }) := by
      simp [FileSystemProvider.loadMind, hidx, hf, hr, hp]
    have hget : ((FileSystemProvider.loadMind st env name).2).mindDirs.get
        name = some (st.baseDir ++ "/" ++ name) := by
      rw [hload]
      exact MapL.get_set_self st.mindDirs name (st.baseDir ++ "/" ++ name)
    refine ⟨hload, hget, ?_⟩
    intro p hfe
    simp [FileSystemProvider.readResource, hget, hfe]

/-- Witness for C9 on a concrete empty index, with a parsable document
on disk at the fallback path. -/
theorem C9_readResource_no_fallback_witness :
    FileSystemProvider.readResource ⟨"/b", MapL.empty⟩
        ⟨fun _ => true,
          fun q => if q = "/b/m1/MIND.md"
            then some "---\nname: m1\ndescription: d\n---\nbody"
            else some "resource",
          fun _ _ _ => SpawnOutcome.exn ""⟩ "m1" "references/g.md" = none
    ∧ FileSystemProvider.hasMind ⟨"/b", MapL.empty⟩
        ⟨fun _ => true,
          fun q => if q = "/b/m1/MIND.md"
            then some "---\nname: m1\ndescription: d\n---\nbody"
            else some "resource",
          fun _ _ _ => SpawnOutcome.exn ""⟩ "m1" = true
    ∧ ((FileSystemProvider.loadMind ⟨"/b", MapL.empty⟩
        ⟨fun _ => true,
          fun q => if q = "/b/m1/MIND.md"
            then some "---\nname: m1\ndescription: d\n---\nbody"
            else some "resource",
          fun _ _ _ => SpawnOutcome.exn ""⟩ "m1").2).mindDirs.get "m1"
      = some ("/b" ++ "/" ++ "m1")
    ∧ FileSystemProvider.readResource
        (FileSystemProvider.loadMind ⟨"/b", MapL.empty⟩
          ⟨fun _ => true,
            fun q => if q = "/b/m1/MIND.md"
              then some "---\nname: m1\ndescription: d\n---\nbody"
              else some "resource",
            fun _ _ _ => SpawnOutcome.exn ""⟩ "m1").2
        ⟨fun _ => true,
          fun q => if q = "/b/m1/MIND.md"
            then some "---\nname: m1\ndescription: d\n---\nbody"
            else some "resource",
          fun _ _ _ => SpawnOutcome.exn ""⟩ "m1" "references/g.md"
      = (if ("/b" ++ "/" ++ "m1" ++ "/" ++ stripDotDot "references/g.md")
            = "/b/m1/MIND.md"
         then some "---\nname: m1\ndescription: d\n---\nbody"
         else some "resource") := by
  have h := C9_readResource_no_fallback ⟨"/b", MapL.empty⟩
    ⟨fun _ => true,
      fun q => if q = "/b/m1/MIND.md"
        then some "---\nname: m1\ndescription: d\n---\nbody"
        else some "resource",
      fun _ _ _ => SpawnOutcome.exn ""⟩ "m1" "references/g.md"
    "---\nname: m1\ndescription: d\n---\nbody"
    ⟨⟨"m1", "d"⟩, ⟨"m1", "d", none, none, none, none, none⟩, "body"⟩
    rfl
  refine ⟨h.1, h.2.1 rfl, (h.2.2 rfl (by decide) rfl).2.1, ?_⟩
  exact (h.2.2 rfl (by decide) rfl).2.2 "references/g.md" rfl

end MastraMinds
